import Mathlib

/-!
Verification of the one-shot sender/receiver channels of
`pw_async2/public/pw_async2/once_sender.h`.

The header defines two channel flavours:

* the *value* channel `OnceSender<T>` / `OnceReceiver<T>`, which delivers a
  single `T` by value into an `std::optional<T>` slot on the receiver, and
* the *ref* channel `OnceRefSender<T>` / `OnceRefReceiver<T>`, which mutates a
  caller-owned buffer in place and signals completion through the waker.

Endpoints hold raw back-pointers to each other, fixed up under a global lock
on every move, send, poll and destruction.  We embed this shallowly: addresses
are `Nat`, each world holds association-list heaps of sender objects,
receiver objects (and, for the ref channel, caller buffers), plus a counter of
how many times the pairs waker has actually been fired.  Every critical
section of the C++ becomes one total Lean function on the world.
-/

namespace PwAsync2

/-- Modelled from the spec: the `Waker` type of the dispatcher
(`pw_async2/dispatcher.h`, not part of the sources here).  Per the spec it is
an opaque, movable, one-shot handle: `fire(self)` consumes it, a consumed (or
default-constructed) waker is empty and firing it again is a no-op, and
`is_empty()` distinguishes pre-fire from post-fire.  We model it by its one
observable bit: whether it is still live (non-empty). -/
structure Waker where
  live : Bool
deriving DecidableEq, Repr

/-- Translation of `Waker::IsEmpty()`. -/
def Waker.isEmpty (w : Waker) : Bool := !w.live

/-- A default-constructed waker is empty. -/
def Waker.empty : Waker := ⟨false⟩

/-- Modelled from the spec: `pw::Status` as used by this header.  Only
`OkStatus()` and `Status::Cancelled()` are ever produced. -/
inductive Status where
  | ok
  | cancelled
deriving DecidableEq, Repr

/-- Modelled from the spec: `Poll<A>`, a tagged variant with states
`Pending` and `Ready(a)`. -/
inductive Poll (A : Type) where
  | Pending
  | Ready (a : A)
deriving DecidableEq, Repr

/-- Modelled from the spec: `pw::Result<T>`, a tagged variant of a value or an
error status. -/
inductive VResult (T : Type) where
  | ok (v : T)
  | err (s : Status)
deriving DecidableEq, Repr

/-! ### Address-indexed heaps

Objects live at `Nat` addresses.  A heap is an association list; `hfind`
returns the first binding, `hset` binds an address (shadowing nothing, since
it removes the old binding first) and `hremove` deletes an address.  These
play the role of the C++ object graph: constructing an object is `hset` at a
fresh address, destroying it is `hremove`. -/

def hfind {A : Type} : List (Nat × A) → Nat → Option A
  | [], _ => none
  | (k, v) :: t, a => if k = a then some v else hfind t a

def hremove {A : Type} : List (Nat × A) → Nat → List (Nat × A)
  | [], _ => []
  | (k, v) :: t, a => if k = a then hremove t a else (k, v) :: hremove t a

def hset {A : Type} (h : List (Nat × A)) (k : Nat) (v : A) : List (Nat × A) :=
  (k, v) :: hremove h k

/-- Whether an object lives at address `k`. -/
def hmem {A : Type} (h : List (Nat × A)) (k : Nat) : Bool :=
  (hfind h k).isSome

theorem hfind_hremove {A : Type} (h : List (Nat × A)) (k a : Nat) :
    hfind (hremove h k) a = if k = a then none else hfind h a := by
  induction h with
  | nil => simp [hremove, hfind]
  | cons p t ih =>
    obtain ⟨k', v'⟩ := p
    by_cases hk : k' = k
    · subst hk
      by_cases ha : k' = a
      · subst ha; simp [hremove, hfind, ih]
      · simp [hremove, hfind, ha, ih]
    · by_cases ha : k' = a
      · subst ha
        have : ¬ k = k' := fun h => hk h.symm
        simp [hremove, hfind, hk, this]
      · simp [hremove, hfind, hk, ha, ih]

theorem hfind_hset {A : Type} (h : List (Nat × A)) (k : Nat) (v : A) (a : Nat) :
    hfind (hset h k v) a = if k = a then some v else hfind h a := by
  by_cases ha : k = a
  · subst ha; simp [hset, hfind]
  · simp [hset, hfind, ha, hfind_hremove]

/-! ### The value channel: `OnceSender<T>` / `OnceReceiver<T>`

Field-for-field translation of the two classes.  `OnceSender` holds only
`receiver_`, a nullable pointer to its peer; `OnceReceiver` holds `sender_`,
the `std::optional<T> value_` slot and the `Waker waker_`. -/

/-- The fields of an `OnceSender<T>` object (`once_sender.h:158`). -/
structure VSender where
  receiver_ : Option Nat
deriving DecidableEq, Repr

/-- The fields of an `OnceReceiver<T>` object (`once_sender.h:90-92`). -/
structure VReceiver (T : Type) where
  sender_ : Option Nat
  value_ : Option T
  waker_ : Waker
deriving DecidableEq, Repr

/-- A world of value-channel objects: the sender heap, the receiver heap, and
the number of times a waker has actually been fired (`Waker::Wake()` on a
non-empty waker).  The counter is ghost state used to state the
at-most-one-wake invariant; the C++ has no such field. -/
structure VWorld (T : Type) where
  senders : List (Nat × VSender)
  receivers : List (Nat × VReceiver T)
  woken : Nat
deriving DecidableEq, Repr

/-- Translation of `std::move(waker).Wake()`: firing a live waker consumes it and notifies
the dispatcher (we count the notification); firing an empty waker is a no-op
but the moved-from waker is empty either way. -/
def fireWaker (w : Waker) (count : Nat) : Waker × Nat :=
  if w.live then (Waker.empty, count + 1) else (Waker.empty, count)

/-- Translation of `OnceReceiver<T>::Pend()` (`once_sender.h:67-75`): under the lock,
if `value_` holds a value return `Ready(value)`, else if `sender_` is null
return `Ready(Status::Cancelled())`, else `Pending`.

The C++ returns `Ready(std::move(*value_))`, which moves from the contained
value but leaves the `std::optional` engaged (`has_value()` stays true); for
a trivially copyable `T` the slots contents are unchanged, which is how we
model it, so `Pend` is a pure query of the world.  A `Pend` on an address
holding no receiver object has no C++ counterpart; we return `Pending`. -/
def vPend {T : Type} (w : VWorld T) (ra : Nat) : Poll (VResult T) :=
  match hfind w.receivers ra with
  | none => Poll.Pending
  | some r =>
    match r.value_ with
    | some v => Poll.Ready (VResult.ok v)
    | none =>
      match r.sender_ with
      | none => Poll.Ready (VResult.err Status.cancelled)
      | some _ => Poll.Pending


/-- Translation of `OnceSender<T>::emplace(args...)` (`once_sender.h:127-135`), also reached
by `send` / `operator=`: under the lock, if `receiver_` is non-null, construct
the value in the receivers slot, fire the receivers waker, null the
receivers `sender_` and our own `receiver_`.  If the sender object is absent
or already unlinked the call does nothing. -/
def vEmplace {T : Type} (w : VWorld T) (sa : Nat) (v : T) : VWorld T :=
  match hfind w.senders sa with
  | none => w
  | some s =>
    match s.receiver_ with
    | none => w
    | some ra =>
      match hfind w.receivers ra with
      | none => w
      | some r =>
        let fc := fireWaker r.waker_ w.woken
        { senders := hset w.senders sa ⟨none⟩,
          receivers := hset w.receivers ra ⟨none, some v, fc.1⟩,
          woken := fc.2 }

/-- Translation of `OnceSender<T>::~OnceSender()` (`once_sender.h:104-110`): under the lock,
if still linked, fire the receivers waker and null the receivers `sender_`;
then the object ceases to exist. -/
def vSenderDrop {T : Type} (w : VWorld T) (sa : Nat) : VWorld T :=
  match hfind w.senders sa with
  | none => w
  | some s =>
    match s.receiver_ with
    | none => { w with senders := hremove w.senders sa }
    | some ra =>
      match hfind w.receivers ra with
      | none => { w with senders := hremove w.senders sa }
      | some r =>
        let fc := fireWaker r.waker_ w.woken
        { senders := hremove w.senders sa,
          receivers := hset w.receivers ra { r with sender_ := none, waker_ := fc.1 },
          woken := fc.2 }

/-- Translation of `OnceReceiver<T>::~OnceReceiver()` (`once_sender.h:162-167`): under the
lock, if still linked, null the senders `receiver_`; no waker is fired. -/
def vReceiverDrop {T : Type} (w : VWorld T) (ra : Nat) : VWorld T :=
  match hfind w.receivers ra with
  | none => w
  | some r =>
    match r.sender_ with
    | none => { w with receivers := hremove w.receivers ra }
    | some sa =>
      match hfind w.senders sa with
      | none => { w with receivers := hremove w.receivers ra }
      | some _ =>
        { w with receivers := hremove w.receivers ra,
                 senders := hset w.senders sa ⟨none⟩ }

/-- Translation of `OnceSender<T>::OnceSender(OnceSender&&)` (`once_sender.h:112-119`):
construct a sender at fresh address `t` from the sender at `f`, under the
lock: steal `receiver_`, null it in the source, and if linked repoint the
receivers `sender_` at the new object.  Constructing over an occupied
address has no C++ counterpart (placement over a live object); the model
leaves the world unchanged then, as it does when `f` holds no object. -/
def vSenderMove {T : Type} (w : VWorld T) (f t : Nat) : VWorld T :=
  if hmem w.senders t then w
  else
    match hfind w.senders f with
    | none => w
    | some s =>
      let ss := hset (hset w.senders f ⟨none⟩) t ⟨s.receiver_⟩
      match s.receiver_ with
      | none => { w with senders := ss }
      | some ra =>
        match hfind w.receivers ra with
        | none => { w with senders := ss }
        | some r =>
          { w with senders := ss,
                   receivers := hset w.receivers ra { r with sender_ := some t } }

/-- Translation of `OnceReceiver<T>::OnceReceiver(OnceReceiver&&)` (`once_sender.h:44-56`):
construct a receiver at fresh address `t` from the receiver at `f`, under the
lock: steal `sender_` (nulling the sources and, if linked, repointing the
senders `receiver_`), move the optional value out (the sources optional is
`reset()`), and move the waker (the moved-from waker is empty). -/
def vReceiverMove {T : Type} (w : VWorld T) (f t : Nat) : VWorld T :=
  if hmem w.receivers t then w
  else
    match hfind w.receivers f with
    | none => w
    | some r =>
      let rs := hset (hset w.receivers f ⟨none, none, Waker.empty⟩) t
          ⟨r.sender_, r.value_, r.waker_⟩
      match r.sender_ with
      | none => { w with receivers := rs }
      | some sa =>
        match hfind w.senders sa with
        | none => { w with receivers := rs }
        | some _ =>
          { w with receivers := rs,
                   senders := hset w.senders sa ⟨some t⟩ }

/-- Translation of `MakeOnceSenderAndReceiver<T>(waker)` (`once_sender.h:172-181`): construct
a receiver holding `waker` at `r0` (its `sender_` starts null), a sender at
`s0` already pointing at it, link the receiver back under the lock, then move
both into the returned pair (addresses `sa`, `ra`) and destroy the moved-from
locals (reverse construction order: sender, then receiver). -/
def makeValuePair (T : Type) (s0 r0 sa ra : Nat) (wk : Waker) : VWorld T :=
  let w1 : VWorld T := { senders := [], receivers := hset [] r0 ⟨none, none, wk⟩, woken := 0 }
  let w2 : VWorld T := { w1 with senders := hset w1.senders s0 ⟨some r0⟩ }
  let w3 : VWorld T :=
    { w2 with receivers := hset w2.receivers r0 ⟨some s0, none, wk⟩ }
  let w4 := vSenderMove w3 s0 sa
  let w5 := vReceiverMove w4 r0 ra
  let w6 := vSenderDrop w5 s0
  vReceiverDrop w6 r0

/-- Translation of `InitializeOnceSenderAndReceiver<T>(sender, receiver, waker)`
(`once_sender.h:186-193`): given a default-constructed sender at `sa` and
receiver at `ra`, link them and install the waker under the lock. -/
def initValuePair (T : Type) (sa ra : Nat) (wk : Waker) : VWorld T :=
  let w1 : VWorld T :=
    { senders := hset [] sa ⟨none⟩,
      receivers := hset [] ra ⟨none, none, Waker.empty⟩, woken := 0 }
  { w1 with receivers := hset w1.receivers ra ⟨some sa, none, wk⟩,
            senders := hset w1.senders sa ⟨some ra⟩ }

/-! ### The ref channel: `OnceRefSender<T>` / `OnceRefReceiver<T>`

The receiver stores a pointer `value_` to a caller-owned buffer, a
`cancelled_` flag and the waker; the sender again stores only its peer
pointer.  The caller-owned buffers live in a third heap of the world. -/

/-- The fields of an `OnceRefSender<T>` object (`once_sender.h:354`). -/
structure RSender where
  receiver_ : Option Nat
deriving DecidableEq, Repr

/-- The fields of an `OnceRefReceiver<T>` object (`once_sender.h:257-260`).
`value_` is the address of the caller-supplied buffer. -/
structure RReceiver where
  sender_ : Option Nat
  value_ : Option Nat
  cancelled_ : Bool
  waker_ : Waker
deriving DecidableEq, Repr

/-- A world of ref-channel objects, with the caller-owned `T` buffers in
their own heap and the same ghost count of actual waker firings. -/
structure RWorld (T : Type) where
  senders : List (Nat × RSender)
  receivers : List (Nat × RReceiver)
  buffers : List (Nat × T)
  woken : Nat
deriving DecidableEq, Repr

/-- Translation of `OnceRefReceiver<T>::Pend()` (`once_sender.h:231-240`): under the lock,
if `cancelled_` return `Ready(Status::Cancelled())`, else if the waker is
empty return `Ready(OkStatus())`, else `Pending`.  A pure query. -/
def rPend {T : Type} (w : RWorld T) (ra : Nat) : Poll Status :=
  match hfind w.receivers ra with
  | none => Poll.Pending
  | some r =>
    if r.cancelled_ then Poll.Ready Status.cancelled
    else if r.waker_.isEmpty then Poll.Ready Status.ok
    else Poll.Pending

/-- Translation of `OnceRefSender<T>::Set(value)` (`once_sender.h:297-316`, both overloads):
under the lock, if linked, assign `value` through the receivers buffer
pointer, fire the receivers waker, and null both peer pointers.  The C++
dereferences `value_` unconditionally here; in any world reachable through
the public API the pointer is non-null when linked, and the model leaves the
buffer heap unchanged in the unreachable null case. -/
def rSet {T : Type} (w : RWorld T) (sa : Nat) (v : T) : RWorld T :=
  match hfind w.senders sa with
  | none => w
  | some s =>
    match s.receiver_ with
    | none => w
    | some ra =>
      match hfind w.receivers ra with
      | none => w
      | some r =>
        let bufs := match r.value_ with
          | some ba => hset w.buffers ba v
          | none => w.buffers
        let fc := fireWaker r.waker_ w.woken
        { senders := hset w.senders sa ⟨none⟩,
          receivers := hset w.receivers ra { r with sender_ := none, waker_ := fc.1 },
          buffers := bufs,
          woken := fc.2 }

/-- Translation of `OnceRefSender<T>::ModifyUnsafe(func)` (`once_sender.h:322-328`): under
the lock, if linked, apply `func` to the buffer through the receivers
pointer.  No waker is fired, no pointer is changed, `cancelled_` is
untouched. -/
def rModifyUnsafe {T : Type} (w : RWorld T) (sa : Nat) (func : T → T) : RWorld T :=
  match hfind w.senders sa with
  | none => w
  | some s =>
    match s.receiver_ with
    | none => w
    | some ra =>
      match hfind w.receivers ra with
      | none => w
      | some r =>
        match r.value_ with
        | none => w
        | some ba =>
          match hfind w.buffers ba with
          | none => w
          | some b => { w with buffers := hset w.buffers ba (func b) }

/-- Translation of `OnceRefSender<T>::Commit()` (`once_sender.h:332-339`): under the lock,
if linked, fire the receivers waker and null both peer pointers; the buffer
is not touched. -/
def rCommit {T : Type} (w : RWorld T) (sa : Nat) : RWorld T :=
  match hfind w.senders sa with
  | none => w
  | some s =>
    match s.receiver_ with
    | none => w
    | some ra =>
      match hfind w.receivers ra with
      | none => w
      | some r =>
        let fc := fireWaker r.waker_ w.woken
        { w with senders := hset w.senders sa ⟨none⟩,
                 receivers := hset w.receivers ra { r with sender_ := none, waker_ := fc.1 },
                 woken := fc.2 }

/-- Translation of `OnceRefSender<T>::~OnceRefSender()` (`once_sender.h:272-281`): under the
lock, if still linked, null the receivers `sender_`; then, only if the
receivers waker is non-empty, set `cancelled_` and fire the waker. -/
def rSenderDrop {T : Type} (w : RWorld T) (sa : Nat) : RWorld T :=
  match hfind w.senders sa with
  | none => w
  | some s =>
    match s.receiver_ with
    | none => { w with senders := hremove w.senders sa }
    | some ra =>
      match hfind w.receivers ra with
      | none => { w with senders := hremove w.senders sa }
      | some r =>
        if r.waker_.isEmpty then
          { w with senders := hremove w.senders sa,
                   receivers := hset w.receivers ra { r with sender_ := none } }
        else
          { w with senders := hremove w.senders sa,
                   receivers := hset w.receivers ra
                     { r with sender_ := none, cancelled_ := true, waker_ := Waker.empty },
                   woken := w.woken + 1 }

/-- Translation of `OnceRefReceiver<T>::~OnceRefReceiver()` (`once_sender.h:358-363`): under
the lock, if still linked, null the senders `receiver_`; no waker fires. -/
def rReceiverDrop {T : Type} (w : RWorld T) (ra : Nat) : RWorld T :=
  match hfind w.receivers ra with
  | none => w
  | some r =>
    match r.sender_ with
    | none => { w with receivers := hremove w.receivers ra }
    | some sa =>
      match hfind w.senders sa with
      | none => { w with receivers := hremove w.receivers ra }
      | some _ =>
        { w with receivers := hremove w.receivers ra,
                 senders := hset w.senders sa ⟨none⟩ }

/-- Translation of `OnceRefSender<T>::OnceRefSender(OnceRefSender&&)` (`once_sender.h:283-290`):
same shape as the value-sender move: steal the peer pointer and repoint the
receivers back-pointer at the new address. -/
def rSenderMove {T : Type} (w : RWorld T) (f t : Nat) : RWorld T :=
  if hmem w.senders t then w
  else
    match hfind w.senders f with
    | none => w
    | some s =>
      let ss := hset (hset w.senders f ⟨none⟩) t ⟨s.receiver_⟩
      match s.receiver_ with
      | none => { w with senders := ss }
      | some ra =>
        match hfind w.receivers ra with
        | none => { w with senders := ss }
        | some r =>
          { w with senders := ss,
                   receivers := hset w.receivers ra { r with sender_ := some t } }

/-- Translation of `OnceRefReceiver<T>::OnceRefReceiver(OnceRefReceiver&&)`
(`once_sender.h:210-220`): steal `sender_` (repointing the sender if linked),
copy the buffer pointer and `cancelled_` (both stay valid in the moved-from
object), and move the waker (the moved-from waker is empty). -/
def rReceiverMove {T : Type} (w : RWorld T) (f t : Nat) : RWorld T :=
  if hmem w.receivers t then w
  else
    match hfind w.receivers f with
    | none => w
    | some r =>
      let rs := hset (hset w.receivers f
          { r with sender_ := none, waker_ := Waker.empty }) t r
      match r.sender_ with
      | none => { w with receivers := rs }
      | some sa =>
        match hfind w.senders sa with
        | none => { w with receivers := rs }
        | some _ =>
          { w with receivers := rs,
                   senders := hset w.senders sa ⟨some t⟩ }

/-- Translation of `MakeOnceRefSenderAndReceiver<T>(value, waker)` (`once_sender.h:371-376`):
with the callers buffer at `ba` holding `init`, construct a receiver at `r0`
pointing at the buffer and holding the waker, then a sender at `s0` pointing
at the receiver.  Unlike the value factory there is no explicit back-link
line: the back-pointers are fixed up by the two moves into the returned pair
(`sa`, `ra`), after which the moved-from locals are destroyed. -/
def makeRefPair (T : Type) (s0 r0 sa ra ba : Nat) (init : T) (wk : Waker) : RWorld T :=
  let w1 : RWorld T :=
    { senders := [],
      receivers := hset [] r0 ⟨none, some ba, false, wk⟩,
      buffers := hset [] ba init, woken := 0 }
  let w2 : RWorld T := { w1 with senders := hset w1.senders s0 ⟨some r0⟩ }
  let w3 := rSenderMove w2 s0 sa
  let w4 := rReceiverMove w3 r0 ra
  let w5 := rSenderDrop w4 s0
  rReceiverDrop w5 r0

/-- Translation of `InitializeOnceRefSenderAndReceiver<T>` (`once_sender.h:384-394`): given a
default-constructed sender at `sa` and receiver at `ra` and the buffer at
`ba` holding `init`, link them, store the buffer address, clear `cancelled_`
and install the waker under the lock. -/
def initRefPair (T : Type) (sa ra ba : Nat) (init : T) (wk : Waker) : RWorld T :=
  let w1 : RWorld T :=
    { senders := hset [] sa ⟨none⟩,
      receivers := hset [] ra ⟨none, none, false, Waker.empty⟩,
      buffers := hset [] ba init, woken := 0 }
  { w1 with receivers := hset w1.receivers ra ⟨some sa, some ba, false, wk⟩,
            senders := hset w1.senders sa ⟨some ra⟩ }


/-! ### Operation sequences

Every public mutation of a value-channel world, as one inductive, with
`vRun` folding a sequence of them.  `pend` is included for completeness; in
the model it is a pure query (see `vPend`), so it leaves the world fixed. -/

inductive VOp (T : Type) where
  | senderMove (f t : Nat)
  | receiverMove (f t : Nat)
  | senderDrop (a : Nat)
  | receiverDrop (a : Nat)
  | emplace (a : Nat) (v : T)
  | pend (a : Nat)

def vStep {T : Type} (w : VWorld T) : VOp T → VWorld T
  | VOp.senderMove f t => vSenderMove w f t
  | VOp.receiverMove f t => vReceiverMove w f t
  | VOp.senderDrop a => vSenderDrop w a
  | VOp.receiverDrop a => vReceiverDrop w a
  | VOp.emplace a v => vEmplace w a v
  | VOp.pend _ => w

def vRun {T : Type} (w : VWorld T) (ops : List (VOp T)) : VWorld T :=
  ops.foldl vStep w

/-- Every public mutation of a ref-channel world. -/
inductive ROp (T : Type) where
  | senderMove (f t : Nat)
  | receiverMove (f t : Nat)
  | senderDrop (a : Nat)
  | receiverDrop (a : Nat)
  | set (a : Nat) (v : T)
  | modifyUnsafe (a : Nat) (func : T → T)
  | commit (a : Nat)
  | pend (a : Nat)

def rStep {T : Type} (w : RWorld T) : ROp T → RWorld T
  | ROp.senderMove f t => rSenderMove w f t
  | ROp.receiverMove f t => rReceiverMove w f t
  | ROp.senderDrop a => rSenderDrop w a
  | ROp.receiverDrop a => rReceiverDrop w a
  | ROp.set a v => rSet w a v
  | ROp.modifyUnsafe a func => rModifyUnsafe w a func
  | ROp.commit a => rCommit w a
  | ROp.pend _ => w

def rRun {T : Type} (w : RWorld T) (ops : List (ROp T)) : RWorld T :=
  ops.foldl rStep w

/-! ### The linkage invariant -/

/-- Symmetric linkage between two heaps of objects carrying nullable peer
pointers (`pOf` reads the peer pointer of a left object, `qOf` of a right
object): every non-null pointer is answered by a peer pointing back. -/
def LinkOK2 {S R : Type} (pOf : S → Option Nat) (qOf : R → Option Nat)
    (hs : List (Nat × S)) (hr : List (Nat × R)) : Prop :=
  (∀ sa s ra, hfind hs sa = some s → pOf s = some ra →
    ∃ r, hfind hr ra = some r ∧ qOf r = some sa) ∧
  (∀ ra r sa, hfind hr ra = some r → qOf r = some sa →
    ∃ s, hfind hs sa = some s ∧ pOf s = some ra)

/-- Symmetric linkage for a value-channel world: every non-null `receiver_`
is answered by a receiver whose `sender_` points back, and conversely. -/
def VLinkOK {T : Type} (w : VWorld T) : Prop :=
  LinkOK2 VSender.receiver_ VReceiver.sender_ w.senders w.receivers

/-- Symmetric linkage for a ref-channel world. -/
def RLinkOK {T : Type} (w : RWorld T) : Prop :=
  LinkOK2 RSender.receiver_ RReceiver.sender_ w.senders w.receivers

/-! ### The at-most-one-wake invariant

A single pair owns a single one-shot waker.  Moves hand it over (leaving the
moved-from copy empty) and a fire consumes it, so: either nothing has been
fired yet and at most one live waker exists anywhere, or exactly one fire
happened and every waker is spent. -/

/-- At most one receiver in the heap still holds a live waker. -/
def OneLive {T : Type} (w : VWorld T) : Prop :=
  ∀ a b ra rb, hfind w.receivers a = some ra → hfind w.receivers b = some rb →
    ra.waker_.live = true → rb.waker_.live = true → a = b

/-- Every waker in the heap is spent. -/
def AllSpent {T : Type} (w : VWorld T) : Prop :=
  ∀ a ra, hfind w.receivers a = some ra → ra.waker_.live = false

/-- The wake invariant: no fire yet and at most one live waker, or exactly
one fire and no live waker left. -/
def VWakeInv {T : Type} (w : VWorld T) : Prop :=
  (w.woken = 0 ∧ OneLive w) ∨ (w.woken = 1 ∧ AllSpent w)


/-! ### Generic preservation lemmas for `LinkOK2`

Every mutation in `once_sender.h` edits the two heaps in one of a few
shapes: complete a transfer (null both pointers), destroy an endpoint
(remove it, nulling the peer back-pointer if linked), or move an endpoint
(zero the source, re-create at a fresh address, repoint the peer).  Receiver
edits are the mirror images of sender edits via `LinkOK2.symm`. -/

theorem LinkOK2.symm {S R : Type} {pOf : S → Option Nat} {qOf : R → Option Nat}
    {hs : List (Nat × S)} {hr : List (Nat × R)}
    (h : LinkOK2 pOf qOf hs hr) : LinkOK2 qOf pOf hr hs :=
  ⟨h.2, h.1⟩

/-- Completing a transfer: both ends of the link `sa ↔ ra` replaced by
objects with null pointers. -/
theorem LinkOK2.unlink {S R : Type} {pOf : S → Option Nat} {qOf : R → Option Nat}
    {hs : List (Nat × S)} {hr : List (Nat × R)}
    (h : LinkOK2 pOf qOf hs hr) {sa ra : Nat} {s : S}
    (hs1 : hfind hs sa = some s) (hp : pOf s = some ra)
    {s' : S} {r' : R} (hp' : pOf s' = none) (hq' : qOf r' = none) :
    LinkOK2 pOf qOf (hset hs sa s') (hset hr ra r') := by
  obtain ⟨h1, h2⟩ := h
  obtain ⟨r0, hr0, hq0⟩ := h1 sa s ra hs1 hp
  constructor
  · intro sa' sx ra' hfx hpx
    rw [hfind_hset] at hfx
    by_cases hsa : sa = sa'
    · rw [if_pos hsa] at hfx
      cases hfx
      rw [hp'] at hpx
      exact absurd hpx (by simp)
    · rw [if_neg hsa] at hfx
      obtain ⟨r1, hr1, hq1⟩ := h1 sa' sx ra' hfx hpx
      have hra : ¬ ra = ra' := by
        intro hra
        subst hra
        rw [hr0] at hr1
        cases hr1
        rw [hq0] at hq1
        exact hsa (Option.some.inj hq1)
      exact ⟨r1, by rw [hfind_hset, if_neg hra]; exact hr1, hq1⟩
  · intro ra' rx sa' hfx hqx
    rw [hfind_hset] at hfx
    by_cases hra : ra = ra'
    · rw [if_pos hra] at hfx
      cases hfx
      rw [hq'] at hqx
      exact absurd hqx (by simp)
    · rw [if_neg hra] at hfx
      obtain ⟨s1, hs2, hp1⟩ := h2 ra' rx sa' hfx hqx
      have hsa : ¬ sa = sa' := by
        intro hsa
        subst hsa
        rw [hs1] at hs2
        cases hs2
        rw [hp] at hp1
        exact hra (Option.some.inj hp1)
      exact ⟨s1, by rw [hfind_hset, if_neg hsa]; exact hs2, hp1⟩

/-- Destroying an endpoint whose pointer is already null: just remove it. -/
theorem LinkOK2.dropUnlinked {S R : Type} {pOf : S → Option Nat} {qOf : R → Option Nat}
    {hs : List (Nat × S)} {hr : List (Nat × R)}
    (h : LinkOK2 pOf qOf hs hr) {sa : Nat}
    (hnl : ∀ s, hfind hs sa = some s → pOf s = none) :
    LinkOK2 pOf qOf (hremove hs sa) hr := by
  obtain ⟨h1, h2⟩ := h
  constructor
  · intro sa' sx ra' hfx hpx
    rw [hfind_hremove] at hfx
    by_cases hsa : sa = sa'
    · rw [if_pos hsa] at hfx; cases hfx
    · rw [if_neg hsa] at hfx
      exact h1 sa' sx ra' hfx hpx
  · intro ra' rx sa' hfx hqx
    obtain ⟨s1, hs2, hp1⟩ := h2 ra' rx sa' hfx hqx
    have hsa : ¬ sa = sa' := by
      intro hsa
      subst hsa
      rw [hnl s1 hs2] at hp1
      exact absurd hp1 (by simp)
    exact ⟨s1, by rw [hfind_hremove, if_neg hsa]; exact hs2, hp1⟩

/-- Destroying a linked endpoint: remove it and null the peer back-pointer. -/
theorem LinkOK2.dropLinked {S R : Type} {pOf : S → Option Nat} {qOf : R → Option Nat}
    {hs : List (Nat × S)} {hr : List (Nat × R)}
    (h : LinkOK2 pOf qOf hs hr) {sa ra : Nat} {s : S}
    (hs1 : hfind hs sa = some s) (hp : pOf s = some ra)
    {r' : R} (hq' : qOf r' = none) :
    LinkOK2 pOf qOf (hremove hs sa) (hset hr ra r') := by
  obtain ⟨h1, h2⟩ := h
  obtain ⟨r0, hr0, hq0⟩ := h1 sa s ra hs1 hp
  constructor
  · intro sa' sx ra' hfx hpx
    rw [hfind_hremove] at hfx
    by_cases hsa : sa = sa'
    · rw [if_pos hsa] at hfx; cases hfx
    · rw [if_neg hsa] at hfx
      obtain ⟨r1, hr1, hq1⟩ := h1 sa' sx ra' hfx hpx
      have hra : ¬ ra = ra' := by
        intro hra
        subst hra
        rw [hr0] at hr1
        cases hr1
        rw [hq0] at hq1
        exact hsa (Option.some.inj hq1)
      exact ⟨r1, by rw [hfind_hset, if_neg hra]; exact hr1, hq1⟩
  · intro ra' rx sa' hfx hqx
    rw [hfind_hset] at hfx
    by_cases hra : ra = ra'
    · rw [if_pos hra] at hfx
      cases hfx
      rw [hq'] at hqx
      exact absurd hqx (by simp)
    · rw [if_neg hra] at hfx
      obtain ⟨s1, hs2, hp1⟩ := h2 ra' rx sa' hfx hqx
      have hsa : ¬ sa = sa' := by
        intro hsa
        subst hsa
        rw [hs1] at hs2
        cases hs2
        rw [hp] at hp1
        exact hra (Option.some.inj hp1)
      exact ⟨s1, by rw [hfind_hremove, if_neg hsa]; exact hs2, hp1⟩

/-- Moving an unlinked endpoint from `f` to fresh `t`: both the moved-from
and the moved-to object carry a null pointer, the peer heap is untouched. -/
theorem LinkOK2.moveUnlinked {S R : Type} {pOf : S → Option Nat} {qOf : R → Option Nat}
    {hs : List (Nat × S)} {hr : List (Nat × R)}
    (h : LinkOK2 pOf qOf hs hr) {f t : Nat} {s : S}
    (ht : hfind hs t = none) (hf : hfind hs f = some s) (hp : pOf s = none)
    {s0 s1 : S} (hp0 : pOf s0 = none) (hp1 : pOf s1 = none) :
    LinkOK2 pOf qOf (hset (hset hs f s0) t s1) hr := by
  obtain ⟨h1, h2⟩ := h
  constructor
  · intro sa' sx ra' hfx hpx
    rw [hfind_hset] at hfx
    by_cases hta : t = sa'
    · rw [if_pos hta] at hfx
      cases hfx
      rw [hp1] at hpx
      exact absurd hpx (by simp)
    · rw [if_neg hta, hfind_hset] at hfx
      by_cases hfa : f = sa'
      · rw [if_pos hfa] at hfx
        cases hfx
        rw [hp0] at hpx
        exact absurd hpx (by simp)
      · rw [if_neg hfa] at hfx
        exact h1 sa' sx ra' hfx hpx
  · intro ra' rx sa' hfx hqx
    obtain ⟨s2, hs2, hp2⟩ := h2 ra' rx sa' hfx hqx
    have hta : ¬ t = sa' := by
      intro hta
      subst hta
      rw [ht] at hs2
      cases hs2
    have hfa : ¬ f = sa' := by
      intro hfa
      subst hfa
      rw [hf] at hs2
      cases hs2
      rw [hp] at hp2
      exact absurd hp2 (by simp)
    exact ⟨s2, by rw [hfind_hset, if_neg hta, hfind_hset, if_neg hfa]; exact hs2, hp2⟩

/-- Moving a linked endpoint from `f` to fresh `t`: the moved-from object is
nulled, the moved-to object keeps the link to `ra`, and the peer at `ra` is
repointed at `t`. -/
theorem LinkOK2.moveLinked {S R : Type} {pOf : S → Option Nat} {qOf : R → Option Nat}
    {hs : List (Nat × S)} {hr : List (Nat × R)}
    (h : LinkOK2 pOf qOf hs hr) {f t ra : Nat} {s : S} {r : R}
    (ht : hfind hs t = none) (hf : hfind hs f = some s) (hp : pOf s = some ra)
    (hr1 : hfind hr ra = some r)
    {s0 s1 : S} {r' : R} (hp0 : pOf s0 = none) (hp1 : pOf s1 = some ra)
    (hq' : qOf r' = some t) :
    LinkOK2 pOf qOf (hset (hset hs f s0) t s1) (hset hr ra r') := by
  obtain ⟨h1, h2⟩ := h
  obtain ⟨r0, hr0, hq0⟩ := h1 f s ra hf hp
  rw [hr1] at hr0
  cases hr0
  constructor
  · intro sa' sx ra' hfx hpx
    rw [hfind_hset] at hfx
    by_cases hta : t = sa'
    · subst hta
      rw [if_pos rfl] at hfx
      cases hfx
      rw [hp1] at hpx
      cases hpx
      exact ⟨r', by rw [hfind_hset, if_pos rfl]; exact ⟨rfl, hq'⟩⟩
    · rw [if_neg hta, hfind_hset] at hfx
      by_cases hfa : f = sa'
      · rw [if_pos hfa] at hfx
        cases hfx
        rw [hp0] at hpx
        exact absurd hpx (by simp)
      · rw [if_neg hfa] at hfx
        obtain ⟨r1, hr2, hq1⟩ := h1 sa' sx ra' hfx hpx
        have hra : ¬ ra = ra' := by
          intro hra
          subst hra
          rw [hr1] at hr2
          cases hr2
          rw [hq0] at hq1
          exact hfa (Option.some.inj hq1)
        exact ⟨r1, by rw [hfind_hset, if_neg hra]; exact hr2, hq1⟩
  · intro ra' rx sa' hfx hqx
    rw [hfind_hset] at hfx
    by_cases hra : ra = ra'
    · subst hra
      rw [if_pos rfl] at hfx
      cases hfx
      rw [hq'] at hqx
      cases hqx
      exact ⟨s1, by rw [hfind_hset, if_pos rfl]; exact ⟨rfl, hp1⟩⟩
    · rw [if_neg hra] at hfx
      obtain ⟨s2, hs2, hp2⟩ := h2 ra' rx sa' hfx hqx
      have hta : ¬ t = sa' := by
        intro hta
        subst hta
        rw [ht] at hs2
        cases hs2
      have hfa : ¬ f = sa' := by
        intro hfa
        subst hfa
        rw [hf] at hs2
        cases hs2
        rw [hp] at hp2
        exact hra (Option.some.inj hp2)
      exact ⟨s2, by rw [hfind_hset, if_neg hta, hfind_hset, if_neg hfa]; exact hs2, hp2⟩



/-! ### Linkage preservation, value channel -/

theorem vEmplace_linkOK {T : Type} {w : VWorld T} (h : VLinkOK w) (sa : Nat) (v : T) :
    VLinkOK (vEmplace w sa v) := by
  unfold vEmplace
  split
  · exact h
  next s hs1 =>
    split
    · exact h
    next ra hp =>
      split
      · exact h
      next r hr1 => exact LinkOK2.unlink h hs1 hp rfl rfl

theorem vSenderDrop_linkOK {T : Type} {w : VWorld T} (h : VLinkOK w) (sa : Nat) :
    VLinkOK (vSenderDrop w sa) := by
  unfold vSenderDrop
  split
  · exact h
  next s hs1 =>
    split
    next hp =>
      refine LinkOK2.dropUnlinked h ?_
      intro s' hs'
      rw [hs1] at hs'
      cases hs'
      exact hp
    next ra hp =>
      split
      next hr1 =>
        obtain ⟨r0, hr0, _⟩ := h.1 sa s ra hs1 hp
        rw [hr1] at hr0
        cases hr0
      next r hr1 => exact LinkOK2.dropLinked h hs1 hp rfl

theorem vReceiverDrop_linkOK {T : Type} {w : VWorld T} (h : VLinkOK w) (ra : Nat) :
    VLinkOK (vReceiverDrop w ra) := by
  unfold vReceiverDrop
  split
  · exact h
  next r hr1 =>
    split
    next hq =>
      refine (LinkOK2.dropUnlinked h.symm ?_).symm
      intro r' hr'
      rw [hr1] at hr'
      cases hr'
      exact hq
    next sa hq =>
      split
      next hs1 =>
        obtain ⟨s0, hs0, _⟩ := h.2 ra r sa hr1 hq
        rw [hs1] at hs0
        cases hs0
      next s hs1 => exact (LinkOK2.dropLinked h.symm hr1 hq rfl).symm

theorem hfind_none_of_not_hmem {A : Type} {h : List (Nat × A)} {k : Nat}
    (hm : ¬ hmem h k = true) : hfind h k = none := by
  unfold hmem at hm
  cases hf : hfind h k
  · rfl
  · rw [hf] at hm; simp at hm

theorem vSenderMove_linkOK {T : Type} {w : VWorld T} (h : VLinkOK w) (f t : Nat) :
    VLinkOK (vSenderMove w f t) := by
  unfold vSenderMove
  split
  · exact h
  next hmt =>
    have ht : hfind w.senders t = none := hfind_none_of_not_hmem hmt
    split
    · exact h
    next s hf =>
      split
      next hp => exact LinkOK2.moveUnlinked h ht hf hp rfl hp
      next ra hp =>
        split
        next hr1 =>
          obtain ⟨r0, hr0, _⟩ := h.1 f s ra hf hp
          rw [hr1] at hr0
          cases hr0
        next r hr1 => exact LinkOK2.moveLinked h ht hf hp hr1 rfl hp rfl

theorem vReceiverMove_linkOK {T : Type} {w : VWorld T} (h : VLinkOK w) (f t : Nat) :
    VLinkOK (vReceiverMove w f t) := by
  unfold vReceiverMove
  split
  · exact h
  next hmt =>
    have ht : hfind w.receivers t = none := hfind_none_of_not_hmem hmt
    split
    · exact h
    next r hf =>
      split
      next hq => exact (LinkOK2.moveUnlinked h.symm ht hf hq rfl hq).symm
      next sa hq =>
        split
        next hs1 =>
          obtain ⟨s0, hs0, _⟩ := h.2 f r sa hf hq
          rw [hs1] at hs0
          cases hs0
        next s hs1 => exact (LinkOK2.moveLinked h.symm ht hf hq hs1 rfl hq rfl).symm

/-- One value-channel step preserves the linkage invariant. -/
theorem vStep_linkOK {T : Type} {w : VWorld T} (h : VLinkOK w) (op : VOp T) :
    VLinkOK (vStep w op) := by
  cases op with
  | senderMove f t => exact vSenderMove_linkOK h f t
  | receiverMove f t => exact vReceiverMove_linkOK h f t
  | senderDrop a => exact vSenderDrop_linkOK h a
  | receiverDrop a => exact vReceiverDrop_linkOK h a
  | emplace a v => exact vEmplace_linkOK h a v
  | pend _ => exact h

/-- Any sequence of value-channel steps preserves the linkage invariant. -/
theorem vRun_linkOK {T : Type} {w : VWorld T} (h : VLinkOK w) (ops : List (VOp T)) :
    VLinkOK (vRun w ops) := by
  induction ops generalizing w with
  | nil => exact h
  | cons op rest ih => exact ih (vStep_linkOK h op)


/-! ### Linkage preservation, ref channel -/

theorem rSet_linkOK {T : Type} {w : RWorld T} (h : RLinkOK w) (sa : Nat) (v : T) :
    RLinkOK (rSet w sa v) := by
  unfold rSet
  split
  · exact h
  next s hs1 =>
    split
    · exact h
    next ra hp =>
      split
      · exact h
      next r hr1 => exact LinkOK2.unlink h hs1 hp rfl rfl

theorem rModifyUnsafe_linkOK {T : Type} {w : RWorld T} (h : RLinkOK w) (sa : Nat)
    (func : T → T) : RLinkOK (rModifyUnsafe w sa func) := by
  unfold rModifyUnsafe
  split
  · exact h
  next s hs1 =>
    split
    · exact h
    next ra hp =>
      split
      · exact h
      next r hr1 =>
        split
        · exact h
        next ba hb =>
          split
          · exact h
          next b hb1 => exact h

theorem rCommit_linkOK {T : Type} {w : RWorld T} (h : RLinkOK w) (sa : Nat) :
    RLinkOK (rCommit w sa) := by
  unfold rCommit
  split
  · exact h
  next s hs1 =>
    split
    · exact h
    next ra hp =>
      split
      · exact h
      next r hr1 => exact LinkOK2.unlink h hs1 hp rfl rfl

theorem rSenderDrop_linkOK {T : Type} {w : RWorld T} (h : RLinkOK w) (sa : Nat) :
    RLinkOK (rSenderDrop w sa) := by
  unfold rSenderDrop
  split
  · exact h
  next s hs1 =>
    split
    next hp =>
      refine LinkOK2.dropUnlinked h ?_
      intro s' hs'
      rw [hs1] at hs'
      cases hs'
      exact hp
    next ra hp =>
      split
      next hr1 =>
        obtain ⟨r0, hr0, _⟩ := h.1 sa s ra hs1 hp
        rw [hr1] at hr0
        cases hr0
      next r hr1 =>
        split
        · exact LinkOK2.dropLinked h hs1 hp rfl
        · exact LinkOK2.dropLinked h hs1 hp rfl

theorem rReceiverDrop_linkOK {T : Type} {w : RWorld T} (h : RLinkOK w) (ra : Nat) :
    RLinkOK (rReceiverDrop w ra) := by
  unfold rReceiverDrop
  split
  · exact h
  next r hr1 =>
    split
    next hq =>
      refine (LinkOK2.dropUnlinked h.symm ?_).symm
      intro r' hr'
      rw [hr1] at hr'
      cases hr'
      exact hq
    next sa hq =>
      split
      next hs1 =>
        obtain ⟨s0, hs0, _⟩ := h.2 ra r sa hr1 hq
        rw [hs1] at hs0
        cases hs0
      next s hs1 => exact (LinkOK2.dropLinked h.symm hr1 hq rfl).symm

theorem rSenderMove_linkOK {T : Type} {w : RWorld T} (h : RLinkOK w) (f t : Nat) :
    RLinkOK (rSenderMove w f t) := by
  unfold rSenderMove
  split
  · exact h
  next hmt =>
    have ht : hfind w.senders t = none := hfind_none_of_not_hmem hmt
    split
    · exact h
    next s hf =>
      split
      next hp => exact LinkOK2.moveUnlinked h ht hf hp rfl hp
      next ra hp =>
        split
        next hr1 =>
          obtain ⟨r0, hr0, _⟩ := h.1 f s ra hf hp
          rw [hr1] at hr0
          cases hr0
        next r hr1 => exact LinkOK2.moveLinked h ht hf hp hr1 rfl hp rfl

theorem rReceiverMove_linkOK {T : Type} {w : RWorld T} (h : RLinkOK w) (f t : Nat) :
    RLinkOK (rReceiverMove w f t) := by
  unfold rReceiverMove
  split
  · exact h
  next hmt =>
    have ht : hfind w.receivers t = none := hfind_none_of_not_hmem hmt
    split
    · exact h
    next r hf =>
      split
      next hq => exact (LinkOK2.moveUnlinked h.symm ht hf hq rfl hq).symm
      next sa hq =>
        split
        next hs1 =>
          obtain ⟨s0, hs0, _⟩ := h.2 f r sa hf hq
          rw [hs1] at hs0
          cases hs0
        next s hs1 => exact (LinkOK2.moveLinked h.symm ht hf hq hs1 rfl hq rfl).symm

/-- One ref-channel step preserves the linkage invariant. -/
theorem rStep_linkOK {T : Type} {w : RWorld T} (h : RLinkOK w) (op : ROp T) :
    RLinkOK (rStep w op) := by
  cases op with
  | senderMove f t => exact rSenderMove_linkOK h f t
  | receiverMove f t => exact rReceiverMove_linkOK h f t
  | senderDrop a => exact rSenderDrop_linkOK h a
  | receiverDrop a => exact rReceiverDrop_linkOK h a
  | set a v => exact rSet_linkOK h a v
  | modifyUnsafe a func => exact rModifyUnsafe_linkOK h a func
  | commit a => exact rCommit_linkOK h a
  | pend _ => exact h

/-- Any sequence of ref-channel steps preserves the linkage invariant. -/
theorem rRun_linkOK {T : Type} {w : RWorld T} (h : RLinkOK w) (ops : List (ROp T)) :
    RLinkOK (rRun w ops) := by
  induction ops generalizing w with
  | nil => exact h
  | cons op rest ih => exact ih (rStep_linkOK h op)


/-! ### Wake preservation, value channel -/

theorem fireWaker_fst (wk : Waker) (c : Nat) : (fireWaker wk c).1 = Waker.empty := by
  unfold fireWaker
  split <;> rfl

theorem fireWaker_snd (wk : Waker) (c : Nat) :
    (fireWaker wk c).2 = if wk.live then c + 1 else c := by
  unfold fireWaker
  split <;> simp_all

/-- Consuming the waker of the receiver at `ra` (send or sender destruction):
the fire count grows only if that waker was live, and the new object at `ra`
carries an empty waker. -/
theorem vWakeInv_consume {T : Type} {w : VWorld T} (h : VWakeInv w) {ra : Nat}
    {r : VReceiver T} (hr1 : hfind w.receivers ra = some r)
    (ss : List (Nat × VSender)) {r' : VReceiver T} (hw : r'.waker_ = Waker.empty) :
    VWakeInv { senders := ss, receivers := hset w.receivers ra r',
               woken := (fireWaker r.waker_ w.woken).2 } := by
  rcases h with ⟨h0, hone⟩ | ⟨h1, hall⟩
  · by_cases hl : r.waker_.live = true
    · right
      constructor
      · show (fireWaker r.waker_ w.woken).2 = 1
        rw [fireWaker_snd, if_pos hl, h0]
      · intro a ra' hfa
        rw [hfind_hset] at hfa
        by_cases hra : ra = a
        · rw [if_pos hra] at hfa
          cases hfa
          rw [hw]
          rfl
        · rw [if_neg hra] at hfa
          by_cases hl' : ra'.waker_.live = true
          · exact absurd (hone a ra ra' r hfa hr1 hl' hl) (fun he => hra he.symm)
          · simpa using hl'
    · left
      constructor
      · show (fireWaker r.waker_ w.woken).2 = 0
        rw [fireWaker_snd, if_neg hl, h0]
      · intro a b ra' rb hfa hfb hla hlb
        rw [hfind_hset] at hfa hfb
        by_cases hra : ra = a
        · rw [if_pos hra] at hfa
          cases hfa
          rw [hw] at hla
          cases hla
        · rw [if_neg hra] at hfa
          by_cases hrb : ra = b
          · rw [if_pos hrb] at hfb
            cases hfb
            rw [hw] at hlb
            cases hlb
          · rw [if_neg hrb] at hfb
            exact hone a b ra' rb hfa hfb hla hlb
  · right
    have hl : r.waker_.live = false := hall ra r hr1
    constructor
    · show (fireWaker r.waker_ w.woken).2 = 1
      rw [fireWaker_snd, if_neg (by rw [hl]; exact Bool.false_ne_true), h1]
    · intro a ra' hfa
      rw [hfind_hset] at hfa
      by_cases hra : ra = a
      · rw [if_pos hra] at hfa
        cases hfa
        rw [hw]
        rfl
      · rw [if_neg hra] at hfa
        exact hall a ra' hfa

/-- Removing a receiver object preserves the wake invariant. -/
theorem vWakeInv_remove {T : Type} {w : VWorld T} (h : VWakeInv w) (ra : Nat)
    (ss : List (Nat × VSender)) :
    VWakeInv { senders := ss, receivers := hremove w.receivers ra,
               woken := w.woken } := by
  rcases h with ⟨h0, hone⟩ | ⟨h1, hall⟩
  · left
    refine ⟨h0, ?_⟩
    intro a b ra' rb hfa hfb hla hlb
    rw [hfind_hremove] at hfa hfb
    by_cases hra : ra = a
    · rw [if_pos hra] at hfa; cases hfa
    · rw [if_neg hra] at hfa
      by_cases hrb : ra = b
      · rw [if_pos hrb] at hfb; cases hfb
      · rw [if_neg hrb] at hfb
        exact hone a b ra' rb hfa hfb hla hlb
  · right
    refine ⟨h1, ?_⟩
    intro a ra' hfa
    rw [hfind_hremove] at hfa
    by_cases hra : ra = a
    · rw [if_pos hra] at hfa; cases hfa
    · rw [if_neg hra] at hfa
      exact hall a ra' hfa

/-- Replacing the receiver at `ra` by one with the same waker preserves the
wake invariant. -/
theorem vWakeInv_sameWaker {T : Type} {w : VWorld T} (h : VWakeInv w) {ra : Nat}
    {r : VReceiver T} (hr1 : hfind w.receivers ra = some r)
    (ss : List (Nat × VSender)) {r' : VReceiver T} (hw : r'.waker_ = r.waker_) :
    VWakeInv { senders := ss, receivers := hset w.receivers ra r',
               woken := w.woken } := by
  rcases h with ⟨h0, hone⟩ | ⟨h1, hall⟩
  · left
    refine ⟨h0, ?_⟩
    intro a b ra' rb hfa hfb hla hlb
    rw [hfind_hset] at hfa hfb
    by_cases hra : ra = a
    · rw [if_pos hra] at hfa
      cases hfa
      rw [hw] at hla
      by_cases hrb : ra = b
      · rw [hra] at hrb; exact hrb
      · rw [if_neg hrb] at hfb
        exact hra.symm.trans (hone ra b r rb hr1 hfb hla hlb)
    · rw [if_neg hra] at hfa
      by_cases hrb : ra = b
      · rw [if_pos hrb] at hfb
        cases hfb
        rw [hw] at hlb
        exact (hone a ra ra' r hfa hr1 hla hlb).trans hrb
      · rw [if_neg hrb] at hfb
        exact hone a b ra' rb hfa hfb hla hlb
  · right
    refine ⟨h1, ?_⟩
    intro a ra' hfa
    rw [hfind_hset] at hfa
    by_cases hra : ra = a
    · rw [if_pos hra] at hfa
      cases hfa
      rw [hw]
      exact hall ra r hr1
    · rw [if_neg hra] at hfa
      exact hall a ra' hfa

/-- Moving a receiver from `f` to fresh `t` hands the waker over and leaves
the moved-from waker empty: the wake invariant is preserved. -/
theorem vWakeInv_transfer {T : Type} {w : VWorld T} (h : VWakeInv w) {f t : Nat}
    {r : VReceiver T} (hf : hfind w.receivers f = some r)
    (ss : List (Nat × VSender)) {rf rt : VReceiver T}
    (hwf : rf.waker_ = Waker.empty) (hwt : rt.waker_ = r.waker_) :
    VWakeInv { senders := ss, receivers := hset (hset w.receivers f rf) t rt,
               woken := w.woken } := by
  have lookup : ∀ a (ra' : VReceiver T),
      hfind (hset (hset w.receivers f rf) t rt) a = some ra' →
      ra'.waker_.live = true →
      (a = t ∧ r.waker_.live = true) ∨
      (a ≠ t ∧ a ≠ f ∧ hfind w.receivers a = some ra') := by
    intro a ra' hfa hla
    rw [hfind_hset] at hfa
    by_cases hta : t = a
    · rw [if_pos hta] at hfa
      cases hfa
      rw [hwt] at hla
      exact Or.inl ⟨hta.symm, hla⟩
    · rw [if_neg hta, hfind_hset] at hfa
      by_cases hfa' : f = a
      · rw [if_pos hfa'] at hfa
        cases hfa
        rw [hwf] at hla
        cases hla
      · rw [if_neg hfa'] at hfa
        exact Or.inr ⟨fun he => hta he.symm, fun he => hfa' he.symm, hfa⟩
  rcases h with ⟨h0, hone⟩ | ⟨h1, hall⟩
  · left
    refine ⟨h0, ?_⟩
    intro a b ra' rb hfa hfb hla hlb
    rcases lookup a ra' hfa hla with ⟨hat, hlr⟩ | ⟨hat, haf, hoa⟩ <;>
      rcases lookup b rb hfb hlb with ⟨hbt, hlr'⟩ | ⟨hbt, hbf, hob⟩
    · rw [hat, hbt]
    · exact absurd (hone f b r rb hf hob hlr hlb).symm hbf
    · exact absurd (hone a f ra' r hoa hf hla hlr') haf
    · exact hone a b ra' rb hoa hob hla hlb
  · right
    refine ⟨h1, ?_⟩
    intro a ra' hfa
    by_cases hl : ra'.waker_.live = true
    · rcases lookup a ra' hfa hl with ⟨_, hlr⟩ | ⟨_, _, hoa⟩
      · rw [hall f r hf] at hlr; cases hlr
      · rw [hall a ra' hoa] at hl; cases hl
    · simpa using hl

theorem vEmplace_wakeInv {T : Type} {w : VWorld T} (h : VWakeInv w) (sa : Nat) (v : T) :
    VWakeInv (vEmplace w sa v) := by
  unfold vEmplace
  split
  · exact h
  next s hs1 =>
    split
    · exact h
    next ra hp =>
      split
      · exact h
      next r hr1 => exact vWakeInv_consume h hr1 _ (fireWaker_fst r.waker_ w.woken)

theorem vSenderDrop_wakeInv {T : Type} {w : VWorld T} (h : VWakeInv w) (sa : Nat) :
    VWakeInv (vSenderDrop w sa) := by
  unfold vSenderDrop
  split
  · exact h
  next s hs1 =>
    split
    · exact h
    next ra hp =>
      split
      · exact h
      next r hr1 => exact vWakeInv_consume h hr1 _ (fireWaker_fst r.waker_ w.woken)

theorem vReceiverDrop_wakeInv {T : Type} {w : VWorld T} (h : VWakeInv w) (ra : Nat) :
    VWakeInv (vReceiverDrop w ra) := by
  unfold vReceiverDrop
  split
  · exact h
  next r hr1 =>
    split
    · exact vWakeInv_remove h ra _
    next sa hq =>
      split
      · exact vWakeInv_remove h ra _
      next s hs1 => exact vWakeInv_remove h ra _

theorem vSenderMove_wakeInv {T : Type} {w : VWorld T} (h : VWakeInv w) (f t : Nat) :
    VWakeInv (vSenderMove w f t) := by
  unfold vSenderMove
  split
  · exact h
  next hmt =>
    split
    · exact h
    next s hfs =>
      split
      · exact h
      next ra hp =>
        split
        · exact h
        next r hr1 => exact vWakeInv_sameWaker h hr1 _ rfl

theorem vReceiverMove_wakeInv {T : Type} {w : VWorld T} (h : VWakeInv w) (f t : Nat) :
    VWakeInv (vReceiverMove w f t) := by
  unfold vReceiverMove
  split
  · exact h
  next hmt =>
    have ht : hfind w.receivers t = none := hfind_none_of_not_hmem hmt
    split
    · exact h
    next r hfr =>
      split
      · exact vWakeInv_transfer h hfr _ rfl rfl
      next sa hq =>
        split
        · exact vWakeInv_transfer h hfr _ rfl rfl
        next s hs1 => exact vWakeInv_transfer h hfr _ rfl rfl

/-- One value-channel step preserves the wake invariant. -/
theorem vStep_wakeInv {T : Type} {w : VWorld T} (h : VWakeInv w) (op : VOp T) :
    VWakeInv (vStep w op) := by
  cases op with
  | senderMove f t => exact vSenderMove_wakeInv h f t
  | receiverMove f t => exact vReceiverMove_wakeInv h f t
  | senderDrop a => exact vSenderDrop_wakeInv h a
  | receiverDrop a => exact vReceiverDrop_wakeInv h a
  | emplace a v => exact vEmplace_wakeInv h a v
  | pend _ => exact h

/-- Any sequence of value-channel steps preserves the wake invariant. -/
theorem vRun_wakeInv {T : Type} {w : VWorld T} (h : VWakeInv w) (ops : List (VOp T)) :
    VWakeInv (vRun w ops) := by
  induction ops generalizing w with
  | nil => exact h
  | cons op rest ih => exact ih (vStep_wakeInv h op)


/-! ### Concrete pair worlds -/

theorem hfind_singleton {A : Type} {k a : Nat} {v x : A}
    (h : hfind [(k, v)] a = some x) : a = k ∧ x = v := by
  unfold hfind at h
  by_cases hk : k = a
  · rw [if_pos hk] at h
    cases h
    exact ⟨hk.symm, rfl⟩
  · rw [if_neg hk] at h
    cases h

/-- A world holding exactly one mutually linked pair satisfies the linkage
invariant. -/
theorem linkOK2_pair {S R : Type} {pOf : S → Option Nat} {qOf : R → Option Nat}
    {sa ra : Nat} {s : S} {r : R} (hp : pOf s = some ra) (hq : qOf r = some sa) :
    LinkOK2 pOf qOf [(sa, s)] [(ra, r)] := by
  constructor
  · intro sa' s' ra' h1 h2
    obtain ⟨ha, hv⟩ := hfind_singleton h1
    subst ha
    subst hv
    rw [hp] at h2
    cases h2
    exact ⟨r, by unfold hfind; rw [if_pos rfl], hq⟩
  · intro ra' r' sa' h1 h2
    obtain ⟨ha, hv⟩ := hfind_singleton h1
    subst ha
    subst hv
    rw [hq] at h2
    cases h2
    exact ⟨s, by unfold hfind; rw [if_pos rfl], hp⟩

/-- The world built by `MakeOnceSenderAndReceiver`, after the two moves into
the pair and the destruction of the moved-from locals: one linked pair at
addresses 2 (sender) and 3 (receiver), the waker intact, nothing fired. -/
theorem makeValuePair_eq (T : Type) (wk : Waker) :
    makeValuePair T 0 1 2 3 wk =
      { senders := [(2, ⟨some 3⟩)],
        receivers := [(3, ⟨some 2, none, wk⟩)], woken := 0 } := rfl

/-- The world built by `MakeOnceRefSenderAndReceiver` over the buffer at
address 4: one linked pair, the buffer pointer stored, `cancelled_` clear,
the waker intact, nothing fired. -/
theorem makeRefPair_eq (T : Type) (x0 : T) (wk : Waker) :
    makeRefPair T 0 1 2 3 4 x0 wk =
      { senders := [(2, ⟨some 3⟩)],
        receivers := [(3, ⟨some 2, some 4, false, wk⟩)],
        buffers := [(4, x0)], woken := 0 } := rfl

theorem initValuePair_eq (T : Type) (wk : Waker) :
    initValuePair T 2 3 wk =
      { senders := [(2, ⟨some 3⟩)],
        receivers := [(3, ⟨some 2, none, wk⟩)], woken := 0 } := rfl

theorem initRefPair_eq (T : Type) (x0 : T) (wk : Waker) :
    initRefPair T 2 3 4 x0 wk =
      { senders := [(2, ⟨some 3⟩)],
        receivers := [(3, ⟨some 2, some 4, false, wk⟩)],
        buffers := [(4, x0)], woken := 0 } := rfl


/-! ### The claims -/

/-- Claim C1: for every value-channel pair created by
`MakeOnceSenderAndReceiver` with waker `wk` and every value `v`: before any
send, `Pend` on the receiver returns `Pending` and the waker is retained
(still installed, nothing fired); after the sender emplaces `v`, the next
`Pend` returns `Ready(Ok(v))`. -/
theorem claim_C1 (T : Type) (wk : Waker) (v : T) :
    vPend (makeValuePair T 0 1 2 3 wk) 3 = Poll.Pending ∧
    hfind (makeValuePair T 0 1 2 3 wk).receivers 3 = some ⟨some 2, none, wk⟩ ∧
    (makeValuePair T 0 1 2 3 wk).woken = 0 ∧
    vPend (vEmplace (makeValuePair T 0 1 2 3 wk) 2 v) 3 =
      Poll.Ready (VResult.ok v) :=
  ⟨rfl, rfl, rfl, rfl⟩

/-- Claim C2: destroying the sender of a value-channel pair before any send
makes the next `Pend` return `Ready(Err(Cancelled))`; and `Cancelled` is the
only error status `Pend` can ever carry, in any world. -/
theorem claim_C2 (T : Type) (wk : Waker) :
    vPend (vSenderDrop (makeValuePair T 0 1 2 3 wk) 2) 3 =
      Poll.Ready (VResult.err Status.cancelled) ∧
    ∀ (w : VWorld T) (a : Nat) (st : Status),
      vPend w a = Poll.Ready (VResult.err st) → st = Status.cancelled := by
  refine ⟨rfl, ?_⟩
  intro w a st h
  unfold vPend at h
  split at h
  · cases h
  next r heq =>
    split at h
    next v heqv => cases h
    next heqv =>
      split at h
      next heqs =>
        injection h with h1
        injection h1 with h2
        exact h2.symm
      next sa heqs => cases h

theorem claim_C2_witness :
    vPend (vSenderDrop (makeValuePair Nat 0 1 2 3 ⟨true⟩) 2) 3 =
      Poll.Ready (VResult.err Status.cancelled) ∧
    Status.cancelled = Status.cancelled :=
  ⟨by decide, (claim_C2 Nat ⟨true⟩).2
    (vSenderDrop (makeValuePair Nat 0 1 2 3 ⟨true⟩) 2) 3 Status.cancelled (by decide)⟩


/-- Claim C3: for every value-channel pair and every sequence of operations
on it, the waker is fired at most once over the pair lifetime; a second
`emplace` after a successful first is a complete no-op, and destroying the
sender after a successful send fires nothing further. -/
theorem claim_C3 (T : Type) (wk : Waker) (v v' : T) :
    (∀ ops : List (VOp T), (vRun (makeValuePair T 0 1 2 3 wk) ops).woken ≤ 1) ∧
    vEmplace (vEmplace (makeValuePair T 0 1 2 3 wk) 2 v) 2 v' =
      vEmplace (makeValuePair T 0 1 2 3 wk) 2 v ∧
    (vSenderDrop (vEmplace (makeValuePair T 0 1 2 3 wk) 2 v) 2).woken =
      (vEmplace (makeValuePair T 0 1 2 3 wk) 2 v).woken := by
  refine ⟨?_, rfl, rfl⟩
  intro ops
  have hinv : VWakeInv (makeValuePair T 0 1 2 3 wk) := by
    left
    refine ⟨rfl, ?_⟩
    intro a b ra rb hfa hfb _ _
    rw [makeValuePair_eq] at hfa hfb
    obtain ⟨ha, _⟩ := hfind_singleton hfa
    obtain ⟨hb, _⟩ := hfind_singleton hfb
    rw [ha, hb]
  rcases vRun_wakeInv hinv ops with ⟨h0, _⟩ | ⟨h1, _⟩
  · rw [h0]; exact Nat.zero_le 1
  · rw [h1]

/-- Claim C7 (counterexample): after a successful send of 42 and a first
`Pend` returning `Ready(Ok(42))`, the receiver state is unchanged — the C++
moves from the contained value but never resets the `std::optional`, so the
slot is still engaged and the link observations are the same — and a second
`Pend` again returns `Ready(Ok(42))`, not `Ready(Err(Cancelled))`. -/
theorem claim_C7_counterexample :
    vPend (vEmplace (makeValuePair Nat 0 1 2 3 ⟨true⟩) 2 42) 3 =
      Poll.Ready (VResult.ok 42) ∧
    hfind (vEmplace (makeValuePair Nat 0 1 2 3 ⟨true⟩) 2 42).receivers 3 =
      some ⟨none, some 42, Waker.empty⟩ ∧
    vPend (vEmplace (makeValuePair Nat 0 1 2 3 ⟨true⟩) 2 42) 3 ≠
      Poll.Ready (VResult.err Status.cancelled) := by decide

/-- Claim C7 (amended): after `Pend` has returned `Ready(Ok(v))`, the value
slot of the receiver remains engaged (the C++ optional is moved from but not
reset), so every later `Pend` again observes the residual value and returns
`Ready` with it — for a trivially copyable `T`, `Ready(Ok(v))` — and never
`Ready(Err(Cancelled))`. -/
theorem claim_C7_amended (T : Type) (wk : Waker) (v : T) (n : Nat) :
    vPend (vRun (vEmplace (makeValuePair T 0 1 2 3 wk) 2 v)
        (List.replicate n (VOp.pend 3))) 3 = Poll.Ready (VResult.ok v) ∧
    hfind (vRun (vEmplace (makeValuePair T 0 1 2 3 wk) 2 v)
        (List.replicate n (VOp.pend 3))).receivers 3 =
      some ⟨none, some v, (fireWaker wk 0).1⟩ := by
  have hid : ∀ (m : Nat) (w : VWorld T),
      vRun w (List.replicate m (VOp.pend 3)) = w := by
    intro m
    induction m with
    | zero => intro w; rfl
    | succ k ih => intro w; exact ih w
  rw [hid]
  exact ⟨rfl, rfl⟩

set_option maxHeartbeats 2000000 in
/-- Claim C8: moving the sender (or the receiver) to a new address and then
sending `v` through the moved-to endpoint yields `Ready(Ok(v))` at the
receiver, the same observable outcome as without the move. -/
theorem claim_C8 (T : Type) (wk : Waker) (v : T) :
    vPend (vEmplace (vSenderMove (makeValuePair T 0 1 2 3 wk) 2 5) 5 v) 3 =
      Poll.Ready (VResult.ok v) ∧
    vPend (vEmplace (vReceiverMove (makeValuePair T 0 1 2 3 wk) 3 6) 2 v) 6 =
      Poll.Ready (VResult.ok v) ∧
    vPend (vEmplace (makeValuePair T 0 1 2 3 wk) 2 v) 3 =
      Poll.Ready (VResult.ok v) :=
  ⟨rfl, rfl, rfl⟩

/-- The object produced by the default constructor `OnceReceiver() = default`
(`once_sender.h:42`): null link, empty optional, default (empty) waker. -/
def defaultVReceiver (T : Type) : VReceiver T := ⟨none, none, Waker.empty⟩

/-- The object produced by `OnceRefReceiver() = default`
(`once_sender.h:208`): null link, null buffer pointer, `cancelled_ = false`,
default (empty) waker. -/
def defaultRReceiver : RReceiver := ⟨none, none, false, Waker.empty⟩

/-- Claim C10: a default-constructed, never linked `OnceReceiver` answers its
first `Pend` with `Ready(Err(Cancelled))`, while a default-constructed
`OnceRefReceiver` answers `Ready(Ok)` (its `cancelled_` flag is false and its
default waker is empty): both are immediately `Ready`, never `Pending`. -/
theorem claim_C10 (TV TR : Type) :
    vPend { senders := [], receivers := [(0, defaultVReceiver TV)], woken := 0 } 0 =
      Poll.Ready (VResult.err Status.cancelled) ∧
    rPend { senders := [], receivers := [(0, defaultRReceiver)],
            buffers := ([] : List (Nat × TR)), woken := 0 } 0 =
      Poll.Ready Status.ok :=
  ⟨rfl, rfl⟩


/-- Claim C4: after `Set(v)` on a ref-channel pair over the buffer at
address 4, the buffer holds `v` and `Pend` returns `Ready(Ok)`; and in any
world, `Pend` never returns `Ready(Ok)` while the receiver waker is still
unconsumed (live). -/
theorem claim_C4 (T : Type) (x0 v : T) (wk : Waker) :
    hfind (rSet (makeRefPair T 0 1 2 3 4 x0 wk) 2 v).buffers 4 = some v ∧
    rPend (rSet (makeRefPair T 0 1 2 3 4 x0 wk) 2 v) 3 = Poll.Ready Status.ok ∧
    ∀ (w : RWorld T) (a : Nat) (r : RReceiver), hfind w.receivers a = some r →
      r.waker_.live = true → rPend w a ≠ Poll.Ready Status.ok := by
  have hset_eq : rSet (makeRefPair T 0 1 2 3 4 x0 wk) 2 v =
      { senders := [(2, ⟨none⟩)],
        receivers := [(3, ⟨none, some 4, false, (fireWaker wk 0).1⟩)],
        buffers := [(4, v)], woken := (fireWaker wk 0).2 } := rfl
  refine ⟨rfl, ?_, ?_⟩
  · rw [hset_eq, fireWaker_fst]
    rfl
  · intro w a r hr hl
    by_cases hc : r.cancelled_ = true
    · simp [rPend, hr, hc]
    · have hne : r.waker_.isEmpty = false := by
        unfold Waker.isEmpty
        rw [hl]
        rfl
      simp [rPend, hr, hc, hne]

theorem claim_C4_witness :
    rPend (makeRefPair Nat 0 1 2 3 4 9 ⟨true⟩) 3 ≠ Poll.Ready Status.ok :=
  (claim_C4 Nat 9 7 ⟨true⟩).2.2 (makeRefPair Nat 0 1 2 3 4 9 ⟨true⟩) 3
    ⟨some 2, some 4, false, ⟨true⟩⟩ (by decide) rfl

/-- Claim C5: destroying a still linked ref-channel sender before `Set` or
`Commit` (here after a partial `ModifyUnsafe` mutation) sets the receiver
`cancelled_` flag, fires the waker (once), unlinks both sides, makes the
next `Pend` return `Ready(Cancelled)`, and leaves the partial mutation
visible in the buffer. -/
theorem claim_C5 (T : Type) (x0 : T) (func : T → T) (wk : Waker)
    (hl : wk.live = true) :
    hfind (rSenderDrop (rModifyUnsafe (makeRefPair T 0 1 2 3 4 x0 wk) 2 func)
        2).receivers 3 = some ⟨none, some 4, true, Waker.empty⟩ ∧
    (rSenderDrop (rModifyUnsafe (makeRefPair T 0 1 2 3 4 x0 wk) 2 func)
        2).woken = 1 ∧
    hfind (rSenderDrop (rModifyUnsafe (makeRefPair T 0 1 2 3 4 x0 wk) 2 func)
        2).senders 2 = none ∧
    rPend (rSenderDrop (rModifyUnsafe (makeRefPair T 0 1 2 3 4 x0 wk) 2 func)
        2) 3 = Poll.Ready Status.cancelled ∧
    hfind (rSenderDrop (rModifyUnsafe (makeRefPair T 0 1 2 3 4 x0 wk) 2 func)
        2).buffers 4 = some (func x0) := by
  have hmod : rModifyUnsafe (makeRefPair T 0 1 2 3 4 x0 wk) 2 func =
      { senders := [(2, ⟨some 3⟩)],
        receivers := [(3, ⟨some 2, some 4, false, wk⟩)],
        buffers := [(4, func x0)], woken := 0 } := rfl
  have hie : wk.isEmpty = false := by
    unfold Waker.isEmpty
    rw [hl]
    rfl
  have hdrop : rSenderDrop
      { senders := [(2, (⟨some 3⟩ : RSender))],
        receivers := [(3, (⟨some 2, some 4, false, wk⟩ : RReceiver))],
        buffers := [(4, func x0)], woken := 0 } 2 =
      { senders := [],
        receivers := [(3, ⟨none, some 4, true, Waker.empty⟩)],
        buffers := [(4, func x0)], woken := 1 } := by
    unfold rSenderDrop
    simp [hfind, hremove, hset, hie]
  rw [hmod, hdrop]
  exact ⟨rfl, rfl, rfl, rfl, rfl⟩

theorem claim_C5_witness :
    (⟨true⟩ : Waker).live = true ∧
    rPend (rSenderDrop (rModifyUnsafe (makeRefPair Nat 0 1 2 3 4 0
        ⟨true⟩) 2 (fun b => b + 5)) 2) 3 = Poll.Ready Status.cancelled := by
  exact ⟨rfl, (claim_C5 Nat 0 (fun b => b + 5) ⟨true⟩ rfl).2.2.2.1⟩


/-- Folding any list of `ModifyUnsafe` calls over a linked concrete pair
changes only the buffer, to the left fold of the functions. -/
theorem rRun_modify (T : Type) (wk : Waker) (fs : List (T → T)) (x : T) :
    rRun { senders := [(2, ⟨some 3⟩)],
           receivers := [(3, ⟨some 2, some 4, false, wk⟩)],
           buffers := [(4, x)], woken := 0 }
        (fs.map (ROp.modifyUnsafe 2)) =
      { senders := [(2, ⟨some 3⟩)],
        receivers := [(3, ⟨some 2, some 4, false, wk⟩)],
        buffers := [(4, fs.foldl (fun b f => f b) x)], woken := 0 } := by
  induction fs generalizing x with
  | nil => rfl
  | cons f rest ih =>
    unfold rRun at ih ⊢
    simp only [List.map_cons, List.foldl_cons]
    exact ih (f x)

/-- Claim C6: after any number of `ModifyUnsafe` calls on a ref-channel pair,
the buffer carries the folded mutations but the links are intact, the waker
is unfired and still live, `cancelled_` is unchanged and `Pend` still
returns `Pending`; a following `Commit` fires the waker exactly once,
unlinks both sides, and makes `Pend` return `Ready(Ok)`. -/
theorem claim_C6 (T : Type) (x0 : T) (wk : Waker) (hl : wk.live = true)
    (fs : List (T → T)) :
    hfind (rRun (makeRefPair T 0 1 2 3 4 x0 wk)
        (fs.map (ROp.modifyUnsafe 2))).senders 2 = some ⟨some 3⟩ ∧
    hfind (rRun (makeRefPair T 0 1 2 3 4 x0 wk)
        (fs.map (ROp.modifyUnsafe 2))).receivers 3 =
      some ⟨some 2, some 4, false, wk⟩ ∧
    (rRun (makeRefPair T 0 1 2 3 4 x0 wk) (fs.map (ROp.modifyUnsafe 2))).woken = 0 ∧
    rPend (rRun (makeRefPair T 0 1 2 3 4 x0 wk)
        (fs.map (ROp.modifyUnsafe 2))) 3 = Poll.Pending ∧
    hfind (rRun (makeRefPair T 0 1 2 3 4 x0 wk)
        (fs.map (ROp.modifyUnsafe 2))).buffers 4 =
      some (fs.foldl (fun b f => f b) x0) ∧
    (rCommit (rRun (makeRefPair T 0 1 2 3 4 x0 wk)
        (fs.map (ROp.modifyUnsafe 2))) 2).woken = 1 ∧
    hfind (rCommit (rRun (makeRefPair T 0 1 2 3 4 x0 wk)
        (fs.map (ROp.modifyUnsafe 2))) 2).senders 2 = some ⟨none⟩ ∧
    hfind (rCommit (rRun (makeRefPair T 0 1 2 3 4 x0 wk)
        (fs.map (ROp.modifyUnsafe 2))) 2).receivers 3 =
      some ⟨none, some 4, false, Waker.empty⟩ ∧
    rPend (rCommit (rRun (makeRefPair T 0 1 2 3 4 x0 wk)
        (fs.map (ROp.modifyUnsafe 2))) 2) 3 = Poll.Ready Status.ok := by
  have hie : wk.isEmpty = false := by
    unfold Waker.isEmpty
    rw [hl]
    rfl
  rw [makeRefPair_eq, rRun_modify]
  have hcom : rCommit
      { senders := [(2, (⟨some 3⟩ : RSender))],
        receivers := [(3, (⟨some 2, some 4, false, wk⟩ : RReceiver))],
        buffers := [(4, fs.foldl (fun b f => f b) x0)], woken := 0 } 2 =
      { senders := [(2, ⟨none⟩)],
        receivers := [(3, ⟨none, some 4, false, (fireWaker wk 0).1⟩)],
        buffers := [(4, fs.foldl (fun b f => f b) x0)],
        woken := (fireWaker wk 0).2 } := rfl
  rw [hcom, fireWaker_fst, fireWaker_snd, if_pos hl]
  refine ⟨rfl, rfl, rfl, ?_, rfl, rfl, rfl, rfl, rfl⟩
  simp [rPend, hfind, hie]

theorem claim_C6_witness :
    (⟨true⟩ : Waker).live = true ∧
    rPend (rCommit (rRun (makeRefPair Nat 0 1 2 3 4 0 ⟨true⟩)
        ([fun b => b + 1].map (ROp.modifyUnsafe 2))) 2) 3 =
      Poll.Ready Status.ok :=
  ⟨rfl, (claim_C6 Nat 0 ⟨true⟩ rfl [fun b => b + 1]).2.2.2.2.2.2.2.2⟩

/-- Claim C9: the linkage is symmetric after pair construction (both `make`
factories and both in-place `initialize` variants) and is preserved by every
operation of either channel kind (moves, sends, `Set`, `Commit`,
`ModifyUnsafe`, polls, and destruction of either endpoint); in particular
the two endpoints returned by `MakeOnceRefSenderAndReceiver` link to each
other. -/
theorem claim_C9 (TV TR : Type) (wkv wkr : Waker) (x0 : TR) :
    VLinkOK (makeValuePair TV 0 1 2 3 wkv) ∧
    VLinkOK (initValuePair TV 2 3 wkv) ∧
    RLinkOK (makeRefPair TR 0 1 2 3 4 x0 wkr) ∧
    RLinkOK (initRefPair TR 2 3 4 x0 wkr) ∧
    (∀ (w : VWorld TV), VLinkOK w → ∀ op : VOp TV, VLinkOK (vStep w op)) ∧
    (∀ (w : RWorld TR), RLinkOK w → ∀ op : ROp TR, RLinkOK (rStep w op)) ∧
    hfind (makeRefPair TR 0 1 2 3 4 x0 wkr).senders 2 = some ⟨some 3⟩ ∧
    hfind (makeRefPair TR 0 1 2 3 4 x0 wkr).receivers 3 =
      some ⟨some 2, some 4, false, wkr⟩ := by
  refine ⟨?_, ?_, ?_, ?_, ?_, ?_, rfl, rfl⟩
  · unfold VLinkOK
    rw [makeValuePair_eq]
    exact linkOK2_pair rfl rfl
  · unfold VLinkOK
    rw [initValuePair_eq]
    exact linkOK2_pair rfl rfl
  · unfold RLinkOK
    rw [makeRefPair_eq]
    exact linkOK2_pair rfl rfl
  · unfold RLinkOK
    rw [initRefPair_eq]
    exact linkOK2_pair rfl rfl
  · exact fun w hw op => vStep_linkOK hw op
  · exact fun w hw op => rStep_linkOK hw op

theorem claim_C9_witness :
    VLinkOK (vStep (makeValuePair Nat 0 1 2 3 ⟨true⟩) (VOp.senderDrop 2)) :=
  (claim_C9 Nat Nat ⟨true⟩ ⟨true⟩ 0).2.2.2.2.1
    (makeValuePair Nat 0 1 2 3 ⟨true⟩)
    (claim_C9 Nat Nat ⟨true⟩ ⟨true⟩ 0).1 (VOp.senderDrop 2)

end PwAsync2
